import Mathlib

/-!
Verification of the overlap-construction core of the DDM playground
repository.  The definitions below are a shallow embedding of
`ddm_playground/mesh/overlap.py` (`add_overlap`) together with the
`MeshData` container it consumes.  Boolean numpy masks of length `N`
are modelled as functions `Nat → Bool`; numpy integer arrays holding
the `-1` "unmapped" sentinel are modelled with `Option Nat`, `none`
standing for `-1`; python floats are modelled as rationals.
-/

namespace DDM

/-- Coordinates of one mesh node; the source stores three floats per node. -/
abbrev Coord : Type := ℚ × ℚ × ℚ

/-- The `MeshData` container consumed by `add_overlap`: spatial dimension,
node coordinates, global element connectivity (one row of node indices per
element) and, for each partition id `0, …, P-1`, the connectivity rows of
the elements assigned to that partition (`partitions_elements`). -/
structure MeshData where
  dim : Nat
  nodes : List Coord
  elements : List (List Nat)
  partitions_elements : List (List (List Nat))

/-- Lines 101-109 of `overlap.py`: the initial node mask of one partition;
a node is tagged when it appears in one of the partition's element rows. -/
def initial_nodes_partition (pelts : List (List Nat)) : Nat → Bool :=
  fun n => pelts.any (fun elt => elt.contains n)

/-- Lines 128-135 (P1 → P0): an element gets marked when one of its nodes
is marked; previously marked elements stay marked. -/
def elemStep (elements : List (List Nat)) (nodes : Nat → Bool) (E : Nat → Bool) : Nat → Bool :=
  fun j => E j || (elements.getD j []).any (fun i => nodes i)

/-- Lines 137-144 (P0 → P1): a node gets marked when it belongs to a marked
element; previously marked nodes stay marked. -/
def nodeStep (elements : List (List Nat)) (E : Nat → Bool) (nodes : Nat → Bool) : Nat → Bool :=
  fun n => nodes n || (List.range elements.length).any (fun j => E j && (elements.getD j []).contains n)

/-- Lines 127-144: `overlap` rounds of expansion, each one element pass
followed by one node pass, threading both masks. -/
def expandN (elements : List (List Nat)) : Nat → (Nat → Bool) → (Nat → Bool) → ((Nat → Bool) × (Nat → Bool))
  | 0, nodes, E => (nodes, E)
  | k+1, nodes, E =>
      expandN elements k (nodeStep elements (elemStep elements nodes E) nodes) (elemStep elements nodes E)

/-- The expanded node mask `nodes_partition[partition_id]` of partition `p`. -/
def nodes_partition (m : MeshData) (overlap : Nat) (p : Nat) : Nat → Bool :=
  (expandN m.elements overlap (initial_nodes_partition (m.partitions_elements.getD p [])) (fun _ => false)).1

/-- The element mask `elements_partition` of partition `p` after expansion. -/
def elements_partition (m : MeshData) (overlap : Nat) (p : Nat) : Nat → Bool :=
  (expandN m.elements overlap (initial_nodes_partition (m.partitions_elements.getD p [])) (fun _ => false)).2

/-- The local index that the counting loop of lines 178-185 assigns to a
masked global node `n`: the number of masked nodes before `n`. -/
def rank (mask : Nat → Bool) (n : Nat) : Nat :=
  (List.range n).countP (fun i => mask i)

/-- Lines 178-185: `global_to_ovr_subdomain`; `none` models the `-1` entry
kept for global nodes outside the mask. -/
def global_to_ovr_subdomain (nb_nodes : Nat) (mask : Nat → Bool) (n : Nat) : Option Nat :=
  if n < nb_nodes ∧ mask n = true then some (rank mask n) else none

/-- Line 208: `sum(nodes_partition[partition_id])`, the local node count. -/
def local_size (nb_nodes : Nat) (mask : Nat → Bool) : Nat :=
  (List.range nb_nodes).countP (fun i => mask i)

/-- The masked global nodes in increasing order (`np.where(mask)[0]`). -/
def masked_nodes (nb_nodes : Nat) (mask : Nat → Bool) : List Nat :=
  (List.range nb_nodes).filter (fun i => mask i)

/-- Lines 209-216: `ovr_subdomain_to_global`, an array of length
`local_size` filled with the `-1` sentinel (`none`) and then written at
`global_to_ovr_subdomain[n]` for every masked global node `n`. -/
def ovr_subdomain_to_global (nb_nodes : Nat) (mask : Nat → Bool) : List (Option Nat) :=
  (List.range nb_nodes).foldl
    (fun arr n =>
      match global_to_ovr_subdomain nb_nodes mask n with
      | some i => arr.set i (some n)
      | none => arr)
    (List.replicate (local_size nb_nodes mask) none)

/-- Lines 192-205: the rows of the subdomain connectivity, one row per
globally marked element, with node indices pushed through
`global_to_ovr_subdomain`. -/
def elements_in_subdomain (nb_nodes : Nat) (elements : List (List Nat)) (E : Nat → Bool) (mask : Nat → Bool) : List (List (Option Nat)) :=
  ((List.range elements.length).filter (fun j => E j)).map
    (fun j => (elements.getD j []).map (fun i => global_to_ovr_subdomain nb_nodes mask i))

/-- Line 248-251: the face extracted from one element: its masked node
indices in row order, remapped to local indices. -/
def interface_face (mask : Nat → Bool) (gtl : Nat → Option Nat) (elt : List Nat) : List (Option Nat) :=
  (elt.filter (fun i => mask i)).map gtl

/-- Lines 240-256, inner `k` loop for one element: at each `k` the face is
appended when the element is still unmarked and exactly `dim` of its nodes
are masked, after which the element absorbs the mark of its `k`-th node. -/
def interface_elem_go (dim : Nat) (face : List (Option Nat)) (cnt : Nat) (mask : Nat → Bool) : List Nat → Bool → List (List (Option Nat))
  | [], _ => []
  | nk :: rest, ep =>
      (if ep = false ∧ cnt = dim then [face] else []) ++
        interface_elem_go dim face cnt mask rest (ep || mask nk)

/-- The interface faces contributed by a single global element whose mask
bit is `ep`; `cnt` is `np.sum(nodes_partition[global_elements[j, :]])`. -/
def interface_elem (dim : Nat) (mask : Nat → Bool) (gtl : Nat → Option Nat) (elt : List Nat) (ep : Bool) : List (List (Option Nat)) :=
  interface_elem_go dim (interface_face mask gtl elt) (elt.countP (fun i => mask i)) mask elt ep

/-- Lines 238-260: the `"interface"` physical group of one subdomain, in
global element order. -/
def interface_faces (dim : Nat) (elements : List (List Nat)) (E : Nat → Bool) (mask : Nat → Bool) (gtl : Nat → Option Nat) : List (List (Option Nat)) :=
  ((List.range elements.length).map
    (fun j => interface_elem dim mask gtl (elements.getD j []) (E j))).flatten

/-- Restatement of the interface extractor used for the refinement
comparison: per global element, no face when the element is marked or when
its masked-node count differs from `dim`; otherwise one copy of the face
when the element's first-listed node is masked and two copies when the
single unmasked node is listed first.  This is the claim's "one face per
qualifying element" amended by the duplication the source loop produces. -/
def interface_faces_spec (dim : Nat) (elements : List (List Nat)) (E : Nat → Bool)
    (mask : Nat → Bool) (gtl : Nat → Option Nat) : List (List (Option Nat)) :=
  ((List.range elements.length).map (fun j =>
    if E j = true then []
    else if (elements.getD j []).countP (fun i => mask i) ≠ dim then []
    else if mask ((elements.getD j []).headD 0) = true
      then [interface_face mask gtl (elements.getD j [])]
      else [interface_face mask gtl (elements.getD j []),
        interface_face mask gtl (elements.getD j [])])).flatten

/-- Lines 303-305: each partition contributes `1` to every node appearing
in its element rows (`np.unique` counts a node once per partition). -/
def node_multiplicity (parts : List (List (List Nat))) (n : Nat) : Nat :=
  parts.countP (fun pelts => initial_nodes_partition pelts n)

/-- `np.where(initial_nodes_partition[partition_id])[0]`: the original
(pre-expansion) nodes of one partition, in increasing global order. -/
def original_nodes (nb_nodes : Nat) (pelts : List (List Nat)) : List Nat :=
  (List.range nb_nodes).filter (fun n => initial_nodes_partition pelts n)

/-- Lines 307-324: the partition-of-unity vector of one subdomain, zero
everywhere except at the local indices of the partition's original nodes,
where the source writes `1.0 / node_multiplicity[ovr_subdomain_to_global[i]]`. -/
def partition_of_unity (nb_nodes : Nat) (parts : List (List (List Nat))) (pelts : List (List Nat)) (mask : Nat → Bool) : List ℚ :=
  (original_nodes nb_nodes pelts).foldl
    (fun arr n =>
      match global_to_ovr_subdomain nb_nodes mask n with
      | some i =>
          match (ovr_subdomain_to_global nb_nodes mask).getD i none with
          | some g => arr.set i (1 / (node_multiplicity parts g : ℚ))
          | none => arr
      | none => arr)
    (List.replicate (local_size nb_nodes mask) 0)

/-- Lines 146-164: the doubled expansion used to search for neighbours,
continuing from the partition's expanded masks. -/
def find_neighbors_mask (m : MeshData) (overlap : Nat) (p : Nat) : Nat → Bool :=
  (expandN m.elements overlap (nodes_partition m overlap p) (elements_partition m overlap p)).1

/-- Lines 166-175: partitions whose original nodes meet the doubled mask. -/
def neighbors_of (m : MeshData) (overlap : Nat) (p : Nat) : List Nat :=
  (List.range m.partitions_elements.length).filter
    (fun q => (q != p) && (List.range m.nodes.length).any
        (fun n => find_neighbors_mask m overlap p n && initial_nodes_partition (m.partitions_elements.getD q []) n))

/-- Lines 271-290: the neighbour-side expansion; the element mask is reset
(`elements_partition.fill(False)`) at the start of every round. -/
def expand_neighborN (elements : List (List Nat)) : Nat → (Nat → Bool) → (Nat → Bool)
  | 0, nodes => nodes
  | k+1, nodes =>
      expand_neighborN elements k (nodeStep elements (elemStep elements nodes (fun _ => false)) nodes)

/-- Lines 292-301: the intersection with one neighbour, as the local
indices of the nodes shared by both expanded masks. -/
def intersection_with (m : MeshData) (overlap : Nat) (p q : Nat) : List (Option Nat) :=
  ((List.range m.nodes.length).filter
      (fun n => nodes_partition m overlap p n &&
        expand_neighborN m.elements overlap (initial_nodes_partition (m.partitions_elements.getD q [])) n)).map
    (fun n => global_to_ovr_subdomain m.nodes.length (nodes_partition m overlap p) n)

/-- Lines 262-301: one intersection list per neighbour, in neighbour order. -/
def intersections_of (m : MeshData) (overlap : Nat) (p : Nat) : List (List (Option Nat)) :=
  (neighbors_of m overlap p).map (fun q => intersection_with m overlap p q)

/-- The restricted `MeshData` built for one subdomain (lines 218-260):
local coordinates, local connectivity and the fresh `"interface"` group. -/
structure SubMesh where
  dim : Nat
  nodes : List Coord
  elements : List (List (Option Nat))
  interface : List (List (Option Nat))

/-- Default value used when indexing the subdomain list out of range. -/
def emptySubMesh : SubMesh := ⟨0, [], [], []⟩

/-- Lines 218-260 for partition `p`. -/
def sub_mesh_of (m : MeshData) (overlap : Nat) (p : Nat) : SubMesh :=
  ⟨m.dim,
   (ovr_subdomain_to_global m.nodes.length (nodes_partition m overlap p)).map
     (fun g => match g with | some n => m.nodes.getD n (0, 0, 0) | none => (0, 0, 0)),
   elements_in_subdomain m.nodes.length m.elements (elements_partition m overlap p) (nodes_partition m overlap p),
   interface_faces m.dim m.elements (elements_partition m overlap p) (nodes_partition m overlap p)
     (fun n => global_to_ovr_subdomain m.nodes.length (nodes_partition m overlap p) n)⟩

/-- The five dictionaries returned by `add_overlap`, keyed by the
contiguous partition ids `0, …, P-1`. -/
structure OverlapResult where
  meshes : List SubMesh
  neighbors : List (List Nat)
  intersections : List (List (List (Option Nat)))
  partition_of_unity : List (List ℚ)
  ovr_subdomain_to_global : List (List (Option Nat))

/-- `add_overlap` for a non-negative number of layers. -/
def add_overlapN (m : MeshData) (overlap : Nat) : OverlapResult :=
  ⟨(List.range m.partitions_elements.length).map (fun p => sub_mesh_of m overlap p),
   (List.range m.partitions_elements.length).map (fun p => neighbors_of m overlap p),
   (List.range m.partitions_elements.length).map (fun p => intersections_of m overlap p),
   (List.range m.partitions_elements.length).map
     (fun p => partition_of_unity m.nodes.length m.partitions_elements (m.partitions_elements.getD p []) (nodes_partition m overlap p)),
   (List.range m.partitions_elements.length).map
     (fun p => ovr_subdomain_to_global m.nodes.length (nodes_partition m overlap p))⟩

/-- `add_overlap` as called: python `for _ in range(overlap)` iterates
`max(overlap, 0)` times, so the `Int` argument acts through `Int.toNat`. -/
def add_overlap (m : MeshData) (overlap : Int) : OverlapResult :=
  add_overlapN m overlap.toNat

/-- Concrete 1-dimensional mesh with three nodes, elements `{0,1}` and
`{1,2}`, split into two one-element partitions.  Used as evaluation input. -/
def mesh0 : MeshData :=
  ⟨1, [(0, 0, 0), (1, 0, 0), (2, 0, 0)], [[0, 1], [1, 2]], [[[0, 1]], [[1, 2]]]⟩

/-- Concrete 1-dimensional mesh with two nodes and a single one-element
partition.  Used as evaluation input. -/
def mesh1 : MeshData :=
  ⟨1, [(0, 0, 0), (1, 0, 0)], [[0, 1]], [[[0, 1]]]⟩

/-- Concrete 1-dimensional mesh with four nodes and three one-element
partitions; the third element is written `[3, 2]`, so its node outside
partition 0's expanded mask comes first in the row. -/
def mesh2 : MeshData :=
  ⟨1, [(0, 0, 0), (1, 0, 0), (2, 0, 0), (3, 0, 0)], [[0, 1], [1, 2], [3, 2]],
   [[[0, 1]], [[1, 2]], [[3, 2]]]⟩

/-! ### Generic list lemmas -/

theorem set_append_len {α : Type} (A : List α) (b : α) (C : List α) (v : α) :
    (A ++ b :: C).set A.length v = A ++ v :: C := by
  rw [List.set_append]
  simp

theorem foldl_congr_mem {α β : Type} (l : List α) (f g : β → α → β) (b : β)
    (h : ∀ x a, a ∈ l → f x a = g x a) : l.foldl f b = l.foldl g b := by
  induction l generalizing b with
  | nil => rfl
  | cons a t ih =>
      rw [List.foldl_cons, List.foldl_cons, h b a (by simp)]
      exact ih _ (fun x a' ha' => h x a' (by simp [ha']))

theorem foldl_ite_filter {α β : Type} (p : α → Bool) (f : β → α → β) (l : List α) (b : β) :
    l.foldl (fun x a => if p a = true then f x a else x) b = (l.filter p).foldl f b := by
  induction l generalizing b with
  | nil => rfl
  | cons a t ih =>
      rw [List.foldl_cons, List.filter_cons]
      by_cases hp : p a = true
      · rw [if_pos hp, if_pos hp, List.foldl_cons]
        exact ih _
      · rw [if_neg hp, if_neg hp]
        exact ih _

theorem getD_range_map {α : Type} (f : Nat → α) (d : α) {P p : Nat} (hp : p < P) :
    ((List.range P).map f).getD p d = f p := by
  have h : p < ((List.range P).map f).length := by simpa using hp
  rw [List.getD_eq_getElem _ _ h, List.getElem_map, List.getElem_range]

theorem getD_map_of_lt {α β : Type} (f : α → β) (l : List α) (d : β) (d' : α) {i : Nat}
    (h : i < l.length) : (l.map f).getD i d = f (l.getD i d') := by
  have h' : i < (l.map f).length := by simpa using h
  rw [List.getD_eq_getElem _ _ h', List.getD_eq_getElem _ _ h, List.getElem_map]

theorem countP_range_getD {α : Type} (Q : α → Bool) (d : α) (l : List α) :
    (List.range l.length).countP (fun p => Q (l.getD p d)) = l.countP Q := by
  induction l with
  | nil => simp
  | cons x xs ih =>
      rw [List.length_cons, List.range_succ_eq_map, List.countP_cons, List.countP_map]
      have hc : ((fun p => Q ((x :: xs).getD p d)) ∘ Nat.succ) = fun p => Q (xs.getD p d) := by
        funext p
        simp [Function.comp, Nat.succ_eq_add_one, List.getD_cons_succ]
      rw [hc, ih, List.countP_cons]
      simp [List.getD_cons_zero]

/-! ### The local numbering assigned by the counting loop -/

theorem length_masked_nodes (N : Nat) (mask : Nat → Bool) :
    (masked_nodes N mask).length = local_size N mask := by
  rw [masked_nodes, local_size, List.countP_eq_length_filter]

theorem countP_range_mono (p : Nat → Bool) {a b : Nat} (h : a ≤ b) :
    (List.range a).countP p ≤ (List.range b).countP p := by
  have h2 := List.range_add a (b - a)
  rw [Nat.add_sub_cancel' h] at h2
  rw [h2, List.countP_append]
  omega

theorem rank_lt_local_size {N : Nat} {mask : Nat → Bool} {n : Nat} (hn : n < N)
    (hm : mask n = true) : rank mask n < local_size N mask := by
  have h1 : (List.range (n + 1)).countP (fun i => mask i) = rank mask n + 1 := by
    rw [List.range_succ, List.countP_append, rank]
    simp [hm]
  have h2 := countP_range_mono (fun i => mask i) (Nat.succ_le_of_lt hn)
  rw [h1] at h2
  rw [local_size]
  omega

theorem masked_nodes_succ (N : Nat) (mask : Nat → Bool) :
    masked_nodes (N + 1) mask = masked_nodes N mask ++ if mask N = true then [N] else [] := by
  rw [masked_nodes, masked_nodes, List.range_succ, List.filter_append]
  congr 1
  by_cases h : mask N = true
  · simp [List.filter_cons, h]
  · simp [List.filter_cons, h]

theorem rank_eq_length_masked {N : Nat} {mask : Nat → Bool} :
    rank mask N = (masked_nodes N mask).length := by
  rw [length_masked_nodes, rank, local_size]

theorem masked_nodes_getD_rank {mask : Nat → Bool} : ∀ {N n : Nat}, n < N → mask n = true →
    (masked_nodes N mask).getD (rank mask n) 0 = n := by
  intro N
  induction N with
  | zero => intro n hn hm; omega
  | succ N ih =>
      intro n hn hm
      rw [masked_nodes_succ]
      by_cases h : n < N
      · rw [List.getD_append]
        · exact ih h hm
        · rw [length_masked_nodes]
          exact rank_lt_local_size h hm
      · have hn' : n = N := by omega
        subst hn'
        rw [List.getD_append_right _ _ _ _ (le_of_eq rank_eq_length_masked.symm)]
        rw [rank_eq_length_masked, Nat.sub_self]
        simp [hm]

theorem rank_masked_nodes_getD {N : Nat} {mask : Nat → Bool} {i : Nat}
    (hi : i < local_size N mask) :
    mask ((masked_nodes N mask).getD i 0) = true ∧ (masked_nodes N mask).getD i 0 < N ∧
      rank mask ((masked_nodes N mask).getD i 0) = i := by
  have hlen : i < (masked_nodes N mask).length := by rw [length_masked_nodes]; exact hi
  have hmem : (masked_nodes N mask).getD i 0 ∈ masked_nodes N mask := by
    rw [List.getD_eq_getElem _ _ hlen]
    exact List.getElem_mem hlen
  have hmem2 : (masked_nodes N mask).getD i 0 ∈ (List.range N).filter (fun j => mask j) := hmem
  have h1 := List.mem_filter.1 hmem2
  have hlt : (masked_nodes N mask).getD i 0 < N := List.mem_range.1 h1.1
  refine ⟨h1.2, hlt, ?_⟩
  have hnd : (masked_nodes N mask).Nodup := List.Nodup.filter _ (List.nodup_range N)
  have h2 : (masked_nodes N mask).getD (rank mask ((masked_nodes N mask).getD i 0)) 0 =
      (masked_nodes N mask).getD i 0 := masked_nodes_getD_rank hlt h1.2
  have hr : rank mask ((masked_nodes N mask).getD i 0) < (masked_nodes N mask).length := by
    rw [length_masked_nodes]
    exact rank_lt_local_size hlt h1.2
  rw [List.getD_eq_getElem _ _ hr] at h2
  exact (List.Nodup.getElem_inj_iff hnd).1 (h2.trans (List.getD_eq_getElem _ _ hlen))

theorem local_size_succ (m : Nat) (mask : Nat → Bool) :
    local_size (m + 1) mask = local_size m mask + if mask m = true then 1 else 0 := by
  rw [local_size, local_size, List.range_succ, List.countP_append]
  simp [List.countP_cons]

/-- Writing `val n` at slot `rank mask n` for every `n` satisfying `cond`
(a sub-predicate of the mask) fills, among the first `local_size m mask`
slots, exactly those whose masked node satisfies `cond`. -/
theorem scatter_prefix {α : Type} (N : Nat) (mask cond : Nat → Bool) (val : Nat → α) (d : α)
    (h : ∀ n, cond n = true → mask n = true) :
    ∀ m, m ≤ N →
      ((List.range m).filter (fun n => cond n)).foldl
          (fun arr n => arr.set (rank mask n) (val n))
          (List.replicate (local_size N mask) d)
        = ((masked_nodes m mask).map (fun n => if cond n = true then val n else d)) ++
            List.replicate (local_size N mask - local_size m mask) d := by
  intro m
  induction m with
  | zero =>
      intro _
      simp [masked_nodes, local_size]
  | succ m ih =>
      intro hm
      have ihm := ih (by omega)
      rw [List.range_succ, List.filter_append, List.foldl_append, ihm, masked_nodes_succ]
      by_cases hmk : mask m = true
      · have hlt : local_size m mask < local_size N mask := by
          have h2 := rank_lt_local_size (show m < N by omega) hmk
          rw [rank] at h2
          rw [local_size]
          exact h2
        obtain ⟨t, ht⟩ : ∃ t, local_size N mask - local_size m mask = t + 1 :=
          ⟨local_size N mask - local_size m mask - 1, by omega⟩
        have hts : local_size N mask - (local_size m mask + 1) = t := by omega
        have hrank : rank mask m =
            ((masked_nodes m mask).map (fun n => if cond n = true then val n else d)).length := by
          rw [List.length_map, ← rank_eq_length_masked]
        by_cases hc : cond m = true
        · have hf : List.filter (fun n => cond n) [m] = [m] := by simp [hc]
          rw [hf, List.foldl_cons, List.foldl_nil, ht, List.replicate_succ, hrank,
            set_append_len, if_pos hmk, local_size_succ, if_pos hmk, hts, List.map_append]
          simp [hc]
        · have hf : List.filter (fun n => cond n) [m] = [] := by simp [hc]
          rw [hf, List.foldl_nil, ht, List.replicate_succ, if_pos hmk,
            local_size_succ, if_pos hmk, hts, List.map_append]
          simp [hc]
      · have hc : cond m ≠ true := fun hcc => hmk (h m hcc)
        have hf : List.filter (fun n => cond n) [m] = [] := by simp [hc]
        rw [hf, List.foldl_nil, if_neg hmk, local_size_succ, if_neg hmk, List.append_nil]
        simp

/-- The scatter loop over all of `range N`. -/
theorem scatter_eq {α : Type} (N : Nat) (mask cond : Nat → Bool) (val : Nat → α) (d : α)
    (h : ∀ n, cond n = true → mask n = true) :
    ((List.range N).filter (fun n => cond n)).foldl
        (fun arr n => arr.set (rank mask n) (val n))
        (List.replicate (local_size N mask) d)
      = (masked_nodes N mask).map (fun n => if cond n = true then val n else d) := by
  have h2 := scatter_prefix N mask cond val d h N (le_refl N)
  rwa [Nat.sub_self, List.replicate_zero, List.append_nil] at h2

/-! ### Characterization of the returned index maps -/

theorem ovr_subdomain_to_global_eq (N : Nat) (mask : Nat → Bool) :
    ovr_subdomain_to_global N mask = (masked_nodes N mask).map some := by
  rw [ovr_subdomain_to_global]
  have hbody := foldl_congr_mem (List.range N)
    (fun arr n =>
      match global_to_ovr_subdomain N mask n with
      | some i => arr.set i (some n)
      | none => arr)
    (fun arr n => if mask n = true then arr.set (rank mask n) (some n) else arr)
    (List.replicate (local_size N mask) (none : Option Nat))
    (by
      intro arr n hn
      dsimp only
      rw [global_to_ovr_subdomain]
      by_cases hm : mask n = true
      · rw [if_pos ⟨List.mem_range.1 hn, hm⟩, if_pos hm]
      · rw [if_neg (fun hand => hm hand.2), if_neg hm])
  rw [hbody, foldl_ite_filter,
    scatter_eq N mask (fun n => mask n) (fun n => some n) none (fun _ hh => hh)]
  refine List.map_congr_left (fun n hn => ?_)
  have hn2 : n ∈ (List.range N).filter (fun j => mask j) := hn
  rw [if_pos (List.mem_filter.1 hn2).2]

theorem length_ovr_subdomain_to_global (N : Nat) (mask : Nat → Bool) :
    (ovr_subdomain_to_global N mask).length = local_size N mask := by
  rw [ovr_subdomain_to_global_eq, List.length_map, length_masked_nodes]

theorem ovr_subdomain_to_global_getD {N : Nat} {mask : Nat → Bool} {i : Nat}
    (hi : i < local_size N mask) :
    (ovr_subdomain_to_global N mask).getD i none =
      some ((masked_nodes N mask).getD i 0) := by
  rw [ovr_subdomain_to_global_eq]
  exact getD_map_of_lt some _ none 0 (by rw [length_masked_nodes]; exact hi)

/-! ### Expansion lemmas -/

theorem expandN_nodes_superset (elements : List (List Nat)) :
    ∀ (k : Nat) (nodes E : Nat → Bool) (n : Nat), nodes n = true →
      (expandN elements k nodes E).1 n = true := by
  intro k
  induction k with
  | zero => intro nodes E n h; exact h
  | succ k ih =>
      intro nodes E n h
      simp only [expandN]
      apply ih
      rw [nodeStep]
      simp [h]

theorem expandN_add (elements : List (List Nat)) (a b : Nat) :
    ∀ (nodes E : Nat → Bool),
      expandN elements (a + b) nodes E =
        expandN elements b (expandN elements a nodes E).1 (expandN elements a nodes E).2 := by
  induction a with
  | zero =>
      intro nodes E
      rw [Nat.zero_add]
      rfl
  | succ a ih =>
      intro nodes E
      have hs : a + 1 + b = (a + b) + 1 := by omega
      rw [hs]
      simp only [expandN]
      exact ih _ _

theorem initial_subset_nodes_partition (m : MeshData) (overlap p n : Nat)
    (h : initial_nodes_partition (m.partitions_elements.getD p []) n = true) :
    nodes_partition m overlap p n = true :=
  expandN_nodes_superset _ _ _ _ _ h

/-- Every marked element of the final state has all of its nodes marked,
provided the starting element mask satisfied the same property. -/
theorem expandN_elements_nodes (elements : List (List Nat)) :
    ∀ (k : Nat) (nodes E : Nat → Bool),
      (∀ j, E j = true → ∀ i ∈ elements.getD j [], nodes i = true) →
      ∀ j, (expandN elements k nodes E).2 j = true →
        ∀ i ∈ elements.getD j [], (expandN elements k nodes E).1 i = true := by
  intro k
  induction k with
  | zero => intro nodes E hinv; exact hinv
  | succ k ih =>
      intro nodes E hinv
      simp only [expandN]
      apply ih
      intro j hj i hi
      have hjlen : j < elements.length := by
        by_contra hno
        have hnil : elements.getD j [] = [] := List.getD_eq_default _ _ (by omega)
        rw [hnil] at hi
        exact absurd hi (List.not_mem_nil i)
      rw [nodeStep]
      simp only [Bool.or_eq_true]
      right
      rw [List.any_eq_true]
      refine ⟨j, List.mem_range.2 hjlen, ?_⟩
      rw [hj]
      simpa using hi

/-! ### Characterization of the partition of unity -/

theorem partition_of_unity_eq (N : Nat) (parts : List (List (List Nat)))
    (pelts : List (List Nat)) (mask : Nat → Bool)
    (hsub : ∀ n, initial_nodes_partition pelts n = true → mask n = true) :
    partition_of_unity N parts pelts mask =
      (masked_nodes N mask).map
        (fun n => if initial_nodes_partition pelts n = true
          then 1 / (node_multiplicity parts n : ℚ) else 0) := by
  rw [partition_of_unity, original_nodes]
  have hbody := foldl_congr_mem
    ((List.range N).filter (fun n => initial_nodes_partition pelts n))
    (fun arr n =>
      match global_to_ovr_subdomain N mask n with
      | some i =>
          match (ovr_subdomain_to_global N mask).getD i none with
          | some g => arr.set i (1 / (node_multiplicity parts g : ℚ))
          | none => arr
      | none => arr)
    (fun arr n => arr.set (rank mask n) (1 / (node_multiplicity parts n : ℚ)))
    (List.replicate (local_size N mask) (0 : ℚ))
    (by
      intro arr n hn
      have hmem := List.mem_filter.1 hn
      have hn' : n < N := List.mem_range.1 hmem.1
      have hmask : mask n = true := hsub n hmem.2
      have hg : global_to_ovr_subdomain N mask n = some (rank mask n) := by
        rw [global_to_ovr_subdomain, if_pos ⟨hn', hmask⟩]
      dsimp only
      rw [hg]
      dsimp only
      rw [ovr_subdomain_to_global_getD (rank_lt_local_size hn' hmask)]
      dsimp only
      rw [masked_nodes_getD_rank hn' hmask])
  rw [hbody]
  exact scatter_eq N mask (fun n => initial_nodes_partition pelts n)
    (fun n => 1 / (node_multiplicity parts n : ℚ)) 0 hsub

theorem partition_of_unity_length (N : Nat) (parts : List (List (List Nat)))
    (pelts : List (List Nat)) (mask : Nat → Bool)
    (hsub : ∀ n, initial_nodes_partition pelts n = true → mask n = true) :
    (partition_of_unity N parts pelts mask).length = local_size N mask := by
  rw [partition_of_unity_eq N parts pelts mask hsub, List.length_map, length_masked_nodes]

/-! ### Characterization of the interface loop -/

theorem interface_elem_go_of_marked (dim : Nat) (face : List (Option Nat)) (cnt : Nat)
    (mask : Nat → Bool) :
    ∀ elt : List Nat, interface_elem_go dim face cnt mask elt true = [] := by
  intro elt
  induction elt with
  | nil => rfl
  | cons nk rest ih => simp [interface_elem_go, ih]

theorem interface_elem_go_of_ne (dim : Nat) (face : List (Option Nat)) (cnt : Nat)
    (mask : Nat → Bool) (hne : cnt ≠ dim) :
    ∀ (elt : List Nat) (ep : Bool), interface_elem_go dim face cnt mask elt ep = [] := by
  intro elt
  induction elt with
  | nil => intro ep; rfl
  | cons nk rest ih => intro ep; simp [interface_elem_go, hne, ih]

theorem interface_elem_spec (dim : Nat) (mask : Nat → Bool) (gtl : Nat → Option Nat)
    (elt : List Nat) (ep : Bool) (hlen : elt.length = dim + 1) (hdim : 1 ≤ dim) :
    interface_elem dim mask gtl elt ep =
      if ep = true then []
      else if elt.countP (fun i => mask i) ≠ dim then []
      else if mask (elt.headD 0) = true then [interface_face mask gtl elt]
      else [interface_face mask gtl elt, interface_face mask gtl elt] := by
  rw [interface_elem]
  cases ep with
  | true =>
      rw [if_pos rfl]
      exact interface_elem_go_of_marked dim _ _ mask elt
  | false =>
      rw [if_neg (by simp)]
      by_cases hcnt : elt.countP (fun i => mask i) = dim
      · rw [if_neg (by simp [hcnt])]
        cases elt with
        | nil =>
            exfalso
            rw [List.length_nil] at hlen
            omega
        | cons h rest =>
            rw [List.headD_cons]
            by_cases hmh : mask h = true
            · rw [if_pos hmh]
              simp [interface_elem_go, hcnt, hmh, interface_elem_go_of_marked]
            · have hmh' : mask h = false := by
                cases hmask : mask h
                · rfl
                · exact absurd hmask hmh
              rw [if_neg hmh]
              have hrlen : rest.length = dim := by
                rw [List.length_cons] at hlen
                omega
              have hcrest : rest.countP (fun i => mask i) = rest.length := by
                rw [List.countP_cons] at hcnt
                rw [hrlen]
                simp only [hmh', if_false] at hcnt
                simpa using hcnt
              have hall := List.countP_eq_length.1 hcrest
              cases rest with
              | nil =>
                  exfalso
                  rw [List.length_nil] at hrlen
                  omega
              | cons h2 rest2 =>
                  have hmh2 : mask h2 = true := hall h2 (by simp)
                  simp [interface_elem_go, hcnt, hmh', hmh2, interface_elem_go_of_marked]
      · rw [if_pos hcnt]
        exact interface_elem_go_of_ne dim _ _ mask hcnt elt false

theorem interface_faces_eq_spec (dim : Nat) (elements : List (List Nat))
    (E mask : Nat → Bool) (gtl : Nat → Option Nat)
    (harity : ∀ elt ∈ elements, elt.length = dim + 1) (hdim : 1 ≤ dim) :
    interface_faces dim elements E mask gtl = interface_faces_spec dim elements E mask gtl := by
  rw [interface_faces, interface_faces_spec]
  congr 1
  refine List.map_congr_left (fun j hj => ?_)
  have hjlen : j < elements.length := List.mem_range.1 hj
  have helt : elements.getD j [] ∈ elements := by
    rw [List.getD_eq_getElem _ _ hjlen]
    exact List.getElem_mem hjlen
  exact interface_elem_spec dim mask gtl (elements.getD j []) (E j) (harity _ helt) hdim

/-! ### Accessing the returned dictionaries -/

theorem meshes_getD (m : MeshData) (o : Int) {p : Nat}
    (hp : p < m.partitions_elements.length) :
    (add_overlap m o).meshes.getD p emptySubMesh = sub_mesh_of m o.toNat p :=
  getD_range_map _ _ hp

theorem result_pou_getD (m : MeshData) (o : Int) {p : Nat}
    (hp : p < m.partitions_elements.length) :
    (add_overlap m o).partition_of_unity.getD p [] =
      partition_of_unity m.nodes.length m.partitions_elements
        (m.partitions_elements.getD p []) (nodes_partition m o.toNat p) :=
  getD_range_map _ _ hp

theorem result_ovr_getD (m : MeshData) (o : Int) {p : Nat}
    (hp : p < m.partitions_elements.length) :
    (add_overlap m o).ovr_subdomain_to_global.getD p [] =
      ovr_subdomain_to_global m.nodes.length (nodes_partition m o.toNat p) :=
  getD_range_map _ _ hp

/-! ### Claim theorems -/

/-- C3, counterexample: on a mesh with a single one-element partition,
`add_overlap` with `overlap = 0` returns a subdomain whose element list is
empty even though the partition's original element set has one element, so
the zero-overlap element-set identity of the claim fails. -/
theorem C3_counterexample :
    ((add_overlap mesh1 0).meshes.getD 0 emptySubMesh).elements.length = 0 ∧
      (mesh1.partitions_elements.getD 0 []).length = 1 := by
  exact ⟨rfl, rfl⟩

/-- C3, amended: with `overlap = 0` the subdomain node set equals the
partition's original disjoint node set, but the subdomain element set is
empty (the expansion loop never marks any element, so the element mask
stays all false). -/
theorem C3_zero_overlap (m : MeshData) (p : Nat)
    (hp : p < m.partitions_elements.length) :
    nodes_partition m 0 p = initial_nodes_partition (m.partitions_elements.getD p []) ∧
      ((add_overlap m 0).meshes.getD p emptySubMesh).elements = [] := by
  constructor
  · rfl
  · rw [meshes_getD m 0 hp]
    show elements_in_subdomain m.nodes.length m.elements
      (elements_partition m 0 p) (nodes_partition m 0 p) = []
    rw [elements_in_subdomain]
    have hE : ∀ j, elements_partition m 0 p j = false := fun _ => rfl
    simp [hE]

/-- C3, witness for the amended theorem at a concrete input. -/
theorem C3_zero_overlap_witness :
    0 < mesh1.partitions_elements.length ∧
      (nodes_partition mesh1 0 0 = initial_nodes_partition (mesh1.partitions_elements.getD 0 []) ∧
        ((add_overlap mesh1 0).meshes.getD 0 emptySubMesh).elements = []) :=
  ⟨by decide, C3_zero_overlap mesh1 0 (by decide)⟩

/-- C5, counterexample: `add_overlap` performs no validation of
`overlap < 0`; calling it with `overlap = -1` returns normally and yields
exactly the same result as `overlap = 0` (every `range(overlap)` loop in the
source runs zero times), instead of failing with a validation error. -/
theorem C5_counterexample : add_overlap mesh1 (-1) = add_overlap mesh1 0 := rfl

/-- C5, amended: `add_overlap` validates nothing; for every mesh and every
non-positive `overlap` the call returns normally with the same value as
`overlap = 0`, so no precondition violation is reported. -/
theorem C5_no_validation (m : MeshData) (o : Int) (h : o ≤ 0) :
    add_overlap m o = add_overlap m 0 := by
  rw [add_overlap, add_overlap, Int.toNat_of_nonpos h]
  rfl

/-- C5, witness for the amended theorem at a concrete input. -/
theorem C5_no_validation_witness :
    (-1 : Int) ≤ 0 ∧ add_overlap mesh0 (-1) = add_overlap mesh0 0 :=
  ⟨by decide, C5_no_validation mesh0 (-1) (by decide)⟩

/-- C7: for the same mesh and partition and overlap depths
`k2 > k1 ≥ 0`, every node marked in the expanded node mask at depth `k1`
is also marked at depth `k2`. -/
theorem C7_monotonic_growth (m : MeshData) (p : Nat) (k1 k2 : Int)
    (_h0 : 0 ≤ k1) (hlt : k1 < k2) (n : Nat)
    (hn : nodes_partition m k1.toNat p n = true) :
    nodes_partition m k2.toNat p n = true := by
  have hk : k1.toNat ≤ k2.toNat := Int.toNat_le_toNat (le_of_lt hlt)
  have hs : k1.toNat + (k2.toNat - k1.toNat) = k2.toNat := by omega
  rw [nodes_partition] at hn ⊢
  rw [← hs, expandN_add]
  exact expandN_nodes_superset _ _ _ _ _ hn

/-- C7, witness at a concrete input. -/
theorem C7_monotonic_growth_witness :
    ((0 : Int) ≤ 0 ∧ (0 : Int) < 1 ∧ nodes_partition mesh0 (Int.toNat 0) 0 2 = false ∧
      nodes_partition mesh0 (Int.toNat 0) 0 0 = true) ∧
      nodes_partition mesh0 (Int.toNat 1) 0 0 = true :=
  ⟨⟨by decide, by decide, by decide, by decide⟩,
   C7_monotonic_growth mesh0 0 0 1 (by decide) (by decide) 0 (by decide)⟩

/-- C8: an empty partition assignment makes `add_overlap` return with all
five output dictionaries empty (the embedding is total, so no error can be
raised). -/
theorem C8_degenerate_input (dim : Nat) (nodes : List Coord)
    (elements : List (List Nat)) (o : Int) :
    (add_overlap ⟨dim, nodes, elements, []⟩ o).meshes = [] ∧
      (add_overlap ⟨dim, nodes, elements, []⟩ o).neighbors = [] ∧
      (add_overlap ⟨dim, nodes, elements, []⟩ o).intersections = [] ∧
      (add_overlap ⟨dim, nodes, elements, []⟩ o).partition_of_unity = [] ∧
      (add_overlap ⟨dim, nodes, elements, []⟩ o).ovr_subdomain_to_global = [] :=
  ⟨rfl, rfl, rfl, rfl, rfl⟩

/-- C9: the node-multiplicity counter is at least `1` for every node in
some partition's original node set, because that partition itself touches
the node, so the division `1 / multiplicity` never divides by zero. -/
theorem C9_no_division_by_zero (parts : List (List (List Nat))) (p n : Nat)
    (hp : p < parts.length)
    (horig : initial_nodes_partition (parts.getD p []) n = true) :
    1 ≤ node_multiplicity parts n := by
  rw [node_multiplicity]
  have hmem : parts.getD p [] ∈ parts := by
    rw [List.getD_eq_getElem _ _ hp]
    exact List.getElem_mem hp
  have hpos : 0 < parts.countP (fun pelts => initial_nodes_partition pelts n) :=
    List.countP_pos_iff.2 ⟨parts.getD p [], hmem, horig⟩
  omega

/-- C9, witness at a concrete input. -/
theorem C9_no_division_by_zero_witness :
    (0 < mesh0.partitions_elements.length ∧
      initial_nodes_partition (mesh0.partitions_elements.getD 0 []) 1 = true) ∧
      1 ≤ node_multiplicity mesh0.partitions_elements 1 :=
  ⟨⟨by decide, by decide⟩,
   C9_no_division_by_zero mesh0.partitions_elements 0 1 (by decide) (by decide)⟩

/-- C6: for every subdomain, the returned `ovr_subdomain_to_global` array
round-trips through `global_to_ovr_subdomain`
(`global_to_local[local_to_global[i]] == i`) and contains no `-1`
(`none`) entries. -/
theorem C6_index_map_inversion (m : MeshData) (o : Int) (p : Nat)
    (hp : p < m.partitions_elements.length) :
    (∀ i, i < ((add_overlap m o).ovr_subdomain_to_global.getD p []).length →
      ∃ n, ((add_overlap m o).ovr_subdomain_to_global.getD p []).getD i none = some n ∧
        global_to_ovr_subdomain m.nodes.length (nodes_partition m o.toNat p) n = some i) ∧
      ∀ x ∈ (add_overlap m o).ovr_subdomain_to_global.getD p [], x ≠ none := by
  rw [result_ovr_getD m o hp]
  constructor
  · intro i hi
    rw [length_ovr_subdomain_to_global] at hi
    refine ⟨(masked_nodes m.nodes.length (nodes_partition m o.toNat p)).getD i 0,
      ovr_subdomain_to_global_getD hi, ?_⟩
    obtain ⟨hmask, hlt, hrank⟩ := rank_masked_nodes_getD hi
    rw [global_to_ovr_subdomain, if_pos ⟨hlt, hmask⟩, hrank]
  · intro x hx
    rw [ovr_subdomain_to_global_eq] at hx
    obtain ⟨a, _, ha⟩ := List.mem_map.1 hx
    rw [← ha]
    simp

/-- C6, witness at a concrete input. -/
theorem C6_index_map_inversion_witness :
    0 < mesh0.partitions_elements.length ∧
      ((∀ i, i < ((add_overlap mesh0 1).ovr_subdomain_to_global.getD 0 []).length →
        ∃ n, ((add_overlap mesh0 1).ovr_subdomain_to_global.getD 0 []).getD i none = some n ∧
          global_to_ovr_subdomain mesh0.nodes.length
            (nodes_partition mesh0 (Int.toNat 1) 0) n = some i) ∧
        ∀ x ∈ (add_overlap mesh0 1).ovr_subdomain_to_global.getD 0 [], x ≠ none) :=
  ⟨by decide, C6_index_map_inversion mesh0 1 0 (by decide)⟩

/-- C10: in every subdomain connectivity row produced by `add_overlap`,
no `-1` (`none`) sentinel leaks: every marked element has all of its nodes
inside the final node mask, so every remapped index is defined. -/
theorem C10_no_sentinel_leak (m : MeshData) (o : Int) (p : Nat)
    (hvalid : ∀ elt ∈ m.elements, ∀ i ∈ elt, i < m.nodes.length)
    (hp : p < m.partitions_elements.length) :
    ∀ row ∈ ((add_overlap m o).meshes.getD p emptySubMesh).elements,
      ∀ x ∈ row, x ≠ none := by
  rw [meshes_getD m o hp]
  intro row hrow x hx
  have hrow2 : row ∈ ((List.range m.elements.length).filter
      (fun j => elements_partition m o.toNat p j)).map
      (fun j => (m.elements.getD j []).map
        (fun i => global_to_ovr_subdomain m.nodes.length (nodes_partition m o.toNat p) i)) := hrow
  obtain ⟨j, hjmem, hjrow⟩ := List.mem_map.1 hrow2
  have hj1 := List.mem_filter.1 hjmem
  have hjlen : j < m.elements.length := List.mem_range.1 hj1.1
  have hE : elements_partition m o.toNat p j = true := hj1.2
  rw [← hjrow] at hx
  obtain ⟨i, himem, hix⟩ := List.mem_map.1 hx
  have hmask : nodes_partition m o.toNat p i = true :=
    expandN_elements_nodes m.elements o.toNat
      (initial_nodes_partition (m.partitions_elements.getD p [])) (fun _ => false)
      (fun _ hj => absurd hj (by simp)) j hE i himem
  have hiN : i < m.nodes.length := by
    have helt : m.elements.getD j [] ∈ m.elements := by
      rw [List.getD_eq_getElem _ _ hjlen]
      exact List.getElem_mem hjlen
    exact hvalid _ helt i himem
  rw [← hix, global_to_ovr_subdomain, if_pos ⟨hiN, hmask⟩]
  simp

/-- C10, witness at a concrete input. -/
theorem C10_no_sentinel_leak_witness :
    ((∀ elt ∈ mesh0.elements, ∀ i ∈ elt, i < mesh0.nodes.length) ∧
      0 < mesh0.partitions_elements.length) ∧
      ∀ row ∈ ((add_overlap mesh0 1).meshes.getD 0 emptySubMesh).elements,
        ∀ x ∈ row, x ≠ none :=
  ⟨⟨by decide, by decide⟩, C10_no_sentinel_leak mesh0 1 0 (by decide) (by decide)⟩

/-- C2: every partition-of-unity entry is `1 / multiplicity(global(i))`
when the corresponding global node is an original member of the
partition's disjoint node set, and `0` otherwise. -/
theorem C2_partition_of_unity_rule (m : MeshData) (o : Int) (p i n : Nat)
    (hp : p < m.partitions_elements.length)
    (hi : i < ((add_overlap m o).partition_of_unity.getD p []).length)
    (hg : ((add_overlap m o).ovr_subdomain_to_global.getD p []).getD i none = some n) :
    ((add_overlap m o).partition_of_unity.getD p []).getD i 0 =
      if initial_nodes_partition (m.partitions_elements.getD p []) n = true
        then 1 / (node_multiplicity m.partitions_elements n : ℚ) else 0 := by
  have hsub : ∀ k, initial_nodes_partition (m.partitions_elements.getD p []) k = true →
      nodes_partition m o.toNat p k = true :=
    fun k hk => initial_subset_nodes_partition m o.toNat p k hk
  rw [result_pou_getD m o hp] at hi
  rw [result_pou_getD m o hp]
  rw [result_ovr_getD m o hp] at hg
  rw [partition_of_unity_length _ _ _ _ hsub] at hi
  rw [ovr_subdomain_to_global_getD hi] at hg
  have hn := Option.some.inj hg
  rw [partition_of_unity_eq _ _ _ _ hsub,
    getD_map_of_lt _ _ _ 0 (by rw [length_masked_nodes]; exact hi), hn]

/-- C2, witness at a concrete input. -/
theorem C2_partition_of_unity_rule_witness :
    (0 < mesh0.partitions_elements.length ∧
      1 < ((add_overlap mesh0 1).partition_of_unity.getD 0 []).length ∧
      ((add_overlap mesh0 1).ovr_subdomain_to_global.getD 0 []).getD 1 none = some 1) ∧
      ((add_overlap mesh0 1).partition_of_unity.getD 0 []).getD 1 0 =
        if initial_nodes_partition (mesh0.partitions_elements.getD 0 []) 1 = true
          then 1 / (node_multiplicity mesh0.partitions_elements 1 : ℚ) else 0 :=
  ⟨⟨by decide, by decide, by decide⟩,
   C2_partition_of_unity_rule mesh0 1 0 1 1 (by decide) (by decide) (by decide)⟩

/-- C4, counterexample: on `mesh2` with `overlap = 1` and partition `0`,
exactly one global element qualifies (outside the element mask with
exactly `dim` masked nodes), yet the `"interface"` group has two faces:
the qualifying element `[3, 2]` lists its unmasked node first, so the
source loop appends the same face twice, contradicting "no qualifying
element contributes more than one face". -/
theorem C4_counterexample :
    ((add_overlap mesh2 1).meshes.getD 0 emptySubMesh).interface.length = 2 ∧
      ((List.range mesh2.elements.length).filter
        (fun j => (!(elements_partition mesh2 1 0 j)) &&
          ((mesh2.elements.getD j []).countP
            (fun i => nodes_partition mesh2 1 0 i) == mesh2.dim))).length = 1 := by
  exact ⟨rfl, rfl⟩

/-- C4, amended: the `"interface"` group consists, in global element
order, of one face per qualifying element whose first-listed node is
masked, and two copies of the face for a qualifying element whose single
unmasked node is listed first; non-qualifying elements contribute
nothing. -/
theorem C4_interface_faces (m : MeshData) (o : Int) (p : Nat)
    (harity : ∀ elt ∈ m.elements, elt.length = m.dim + 1) (hdim : 1 ≤ m.dim)
    (hp : p < m.partitions_elements.length) :
    ((add_overlap m o).meshes.getD p emptySubMesh).interface =
      interface_faces_spec m.dim m.elements (elements_partition m o.toNat p)
        (nodes_partition m o.toNat p)
        (fun n => global_to_ovr_subdomain m.nodes.length (nodes_partition m o.toNat p) n) := by
  rw [meshes_getD m o hp]
  exact interface_faces_eq_spec _ _ _ _ _ harity hdim

/-- C4, witness for the amended theorem at a concrete input. -/
theorem C4_interface_faces_witness :
    ((∀ elt ∈ mesh2.elements, elt.length = mesh2.dim + 1) ∧ 1 ≤ mesh2.dim ∧
      0 < mesh2.partitions_elements.length) ∧
      ((add_overlap mesh2 1).meshes.getD 0 emptySubMesh).interface =
        interface_faces_spec mesh2.dim mesh2.elements (elements_partition mesh2 (Int.toNat 1) 0)
          (nodes_partition mesh2 (Int.toNat 1) 0)
          (fun n => global_to_ovr_subdomain mesh2.nodes.length
            (nodes_partition mesh2 (Int.toNat 1) 0) n) :=
  ⟨⟨by decide, by decide, by decide⟩,
   C4_interface_faces mesh2 1 0 (by decide) (by decide) (by decide)⟩

/-- C1: for every global node `n` touched by at least one partition, the
sum over all subdomains in which `n` is an original member of the
partition-of-unity weight assigned to `n` through its local index equals
exactly `1` (floats modelled as rationals). -/
theorem C1_partition_of_unity_sums_to_one (m : MeshData) (o : Int) (n : Nat)
    (hn : n < m.nodes.length)
    (hex : ∃ p, p < m.partitions_elements.length ∧
      initial_nodes_partition (m.partitions_elements.getD p []) n = true) :
    (((List.range m.partitions_elements.length).filter
        (fun p => initial_nodes_partition (m.partitions_elements.getD p []) n)).map
      (fun p =>
        match global_to_ovr_subdomain m.nodes.length (nodes_partition m o.toNat p) n with
        | some i => ((add_overlap m o).partition_of_unity.getD p []).getD i 0
        | none => 0)).sum = 1 := by
  have hmult : node_multiplicity m.partitions_elements n =
      ((List.range m.partitions_elements.length).filter
        (fun p => initial_nodes_partition (m.partitions_elements.getD p []) n)).length := by
    rw [node_multiplicity,
      ← countP_range_getD (fun pelts => initial_nodes_partition pelts n) [] m.partitions_elements,
      List.countP_eq_length_filter]
  have hpos : 1 ≤ node_multiplicity m.partitions_elements n := by
    obtain ⟨p, hp, horig⟩ := hex
    rw [node_multiplicity]
    have hmem : m.partitions_elements.getD p [] ∈ m.partitions_elements := by
      rw [List.getD_eq_getElem _ _ hp]
      exact List.getElem_mem hp
    have hpos2 : 0 < m.partitions_elements.countP
        (fun pelts => initial_nodes_partition pelts n) :=
      List.countP_pos_iff.2 ⟨m.partitions_elements.getD p [], hmem, horig⟩
    omega
  have hmap : (((List.range m.partitions_elements.length).filter
        (fun p => initial_nodes_partition (m.partitions_elements.getD p []) n)).map
      (fun p =>
        match global_to_ovr_subdomain m.nodes.length (nodes_partition m o.toNat p) n with
        | some i => ((add_overlap m o).partition_of_unity.getD p []).getD i 0
        | none => 0)) =
      List.replicate (node_multiplicity m.partitions_elements n)
        (1 / (node_multiplicity m.partitions_elements n : ℚ)) := by
    rw [List.eq_replicate_iff]
    constructor
    · rw [List.length_map, ← hmult]
    · intro b hb
      obtain ⟨p, hpmem, hpb⟩ := List.mem_map.1 hb
      have hp1 := List.mem_filter.1 hpmem
      have hp : p < m.partitions_elements.length := List.mem_range.1 hp1.1
      have horig := hp1.2
      have hmask : nodes_partition m o.toNat p n = true :=
        initial_subset_nodes_partition m o.toNat p n horig
      have hsub : ∀ k, initial_nodes_partition (m.partitions_elements.getD p []) k = true →
          nodes_partition m o.toNat p k = true :=
        fun k hk => initial_subset_nodes_partition m o.toNat p k hk
      have hg : global_to_ovr_subdomain m.nodes.length (nodes_partition m o.toNat p) n =
          some (rank (nodes_partition m o.toNat p) n) := by
        rw [global_to_ovr_subdomain, if_pos ⟨hn, hmask⟩]
      rw [← hpb]
      rw [hg]
      dsimp only
      rw [result_pou_getD m o hp, partition_of_unity_eq _ _ _ _ hsub,
        getD_map_of_lt _ _ _ 0 (by
          rw [length_masked_nodes]
          exact rank_lt_local_size hn hmask),
        masked_nodes_getD_rank hn hmask, if_pos horig]
  rw [hmap, List.sum_replicate, nsmul_eq_mul, mul_one_div,
    div_self (show ((node_multiplicity m.partitions_elements n : ℚ)) ≠ 0 from
      Nat.cast_ne_zero.2 (by omega))]

/-- C1, witness at a concrete input: the shared node `1` of `mesh0`. -/
theorem C1_partition_of_unity_sums_to_one_witness :
    (1 < mesh0.nodes.length ∧
      (0 < mesh0.partitions_elements.length ∧
        initial_nodes_partition (mesh0.partitions_elements.getD 0 []) 1 = true)) ∧
      (((List.range mesh0.partitions_elements.length).filter
          (fun p => initial_nodes_partition (mesh0.partitions_elements.getD p []) 1)).map
        (fun p =>
          match global_to_ovr_subdomain mesh0.nodes.length
              (nodes_partition mesh0 (Int.toNat 1) p) 1 with
          | some i => ((add_overlap mesh0 1).partition_of_unity.getD p []).getD i 0
          | none => 0)).sum = 1 :=
  ⟨⟨by decide, by decide, by decide⟩,
   C1_partition_of_unity_sums_to_one mesh0 1 1 (by decide) ⟨0, by decide, by decide⟩⟩

end DDM
